import Mathlib

/-!
Verification of the daemon's diff-to-analysis pipeline
(`src/daemon/src/analyzer/diff.rs` and `src/daemon/src/analyzer/impact.rs`).

Strings are modelled as `List Char` (one entry per Unicode scalar value,
matching Rust `char` iteration).  Functions that can panic in the source
return `Option`, with `none` modelling the panic.
-/

set_option maxHeartbeats 1000000
set_option maxRecDepth 8192

/-- Shorthand turning a string literal into its character list. -/
def str (s : String) : List Char := s.data

/-- The `\x7b` character (opening curly bracket). -/
def lbrace : Char := Char.ofNat 123

/-- The `\x7d` character (closing curly bracket). -/
def rbrace : Char := Char.ofNat 125

/-- Boolean prefix test, the model of Rust `str::starts_with`. -/
def startsW : List Char → List Char → Bool
  | [], _ => true
  | _ :: _, [] => false
  | c :: p, d :: l => c == d && startsW p l

/-! ## Splitting into lines (Rust `str::lines`) -/

/-- Split a character list at every newline, keeping empty chunks
(the model of `split('\n')`). -/
def splitNL : List Char → List (List Char)
  | [] => [[]]
  | '\n' :: rest => [] :: splitNL rest
  | c :: rest =>
    match splitNL rest with
    | [] => [[c]]
    | chunk :: more => (c :: chunk) :: more

/-- Remove one trailing carriage return, as Rust `lines` does on
newline-terminated lines. -/
def stripCR (l : List Char) : List Char :=
  match l.getLast? with
  | some '\r' => l.dropLast
  | _ => l

/-- The model of Rust `str::lines`: split at `'\n'`, strip a trailing
`'\r'` from every chunk that was newline-terminated, and drop the final
chunk when it is empty (a trailing line ending is optional). -/
def rustLines (s : List Char) : List (List Char) :=
  match splitNL s with
  | [] => []
  | chunks =>
    match chunks.getLast? with
    | some [] => chunks.dropLast.map stripCR
    | some lastChunk => chunks.dropLast.map stripCR ++ [lastChunk]
    | none => []

/-! ## The diff parser (`diff.rs`) -/

/-- The `DiffFile` struct of `diff.rs`. -/
structure DiffFile where
  path : List Char
  added_lines : Nat
  removed_lines : Nat
  hunks : List (List Char)
deriving DecidableEq, Repr

/-- A line skipped by the parser: old/new file markers `--- ` and `+++ `. -/
def isSkipLine (l : List Char) : Bool :=
  startsW (str "--- ") l || startsW (str "+++ ") l

/-- A file header line `diff --git `. -/
def isHeaderLine (l : List Char) : Bool :=
  startsW (str "diff --git ") l

/-- A hunk marker line `@@`. -/
def isHunkHeader (l : List Char) : Bool :=
  startsW (str "@@") l

/-- A counted added line: starts with `+` but not with `+++`. -/
def isAddLine (l : List Char) : Bool :=
  startsW ['+'] l && !startsW (str "+++") l

/-- A counted removed line: starts with `-` but not with `---`. -/
def isRemLine (l : List Char) : Bool :=
  startsW ['-'] l && !startsW (str "---") l

/-- Rust `str::split(pat)` specialised to the pattern `" b/"` used by the
header path extraction. -/
def splitBSlash : List Char → List (List Char)
  | ' ' :: 'b' :: '/' :: rest => [] :: splitBSlash rest
  | c :: rest =>
    match splitBSlash rest with
    | [] => [[c]]
    | chunk :: more => (c :: chunk) :: more
  | [] => [[]]

/-- Path extraction from a header line:
`line.split(" b/").nth(1).unwrap_or("unknown")`. -/
def headerPath (line : List Char) : List Char :=
  ((splitBSlash line).get? 1).getD (str "unknown")

/-- A fresh `DiffFile` created at a header line. -/
def newFile (line : List Char) : DiffFile :=
  { path := headerPath line, added_lines := 0, removed_lines := 0, hunks := [] }

/-- Push the pending hunk text onto the file when it is non-empty. -/
def flushHunk (f : DiffFile) (hunk : List Char) : DiffFile :=
  if hunk = [] then f else { f with hunks := f.hunks ++ [hunk] }

/-- The scanning loop of `parse_diff`: state is the current open file
(`current` in the source) and the pending hunk text (`current_hunk`). -/
def parseDiffGo : List (List Char) → Option DiffFile → List Char → List DiffFile
  | [], none, _ => []
  | [], some f, hunk => [flushHunk f hunk]
  | line :: rest, cur, hunk =>
    if isSkipLine line then
      parseDiffGo rest cur hunk
    else if isHeaderLine line then
      match cur with
      | none => parseDiffGo rest (some (newFile line)) hunk
      | some f => flushHunk f hunk :: parseDiffGo rest (some (newFile line)) []
    else
      match cur with
      | none => parseDiffGo rest none hunk
      | some f =>
        if isHunkHeader line then
          parseDiffGo rest (some (flushHunk f hunk)) (line ++ ['\n'])
        else if isAddLine line then
          parseDiffGo rest (some { f with added_lines := f.added_lines + 1 }) (hunk ++ line ++ ['\n'])
        else if isRemLine line then
          parseDiffGo rest (some { f with removed_lines := f.removed_lines + 1 }) (hunk ++ line ++ ['\n'])
        else
          parseDiffGo rest (some f) (hunk ++ line ++ ['\n'])

/-- The model of `parse_diff` from `diff.rs`. -/
def parse_diff (raw : List Char) : List DiffFile :=
  parseDiffGo (rustLines raw) none []

/-! ## Per-section view of the parser, used to state the per-file claims -/

/-- One step of the scanning loop while inside a file section
(every branch except the file-header one). -/
def sectionStep (f : DiffFile) (hunk : List Char) (line : List Char) : DiffFile × List Char :=
  if isSkipLine line then (f, hunk)
  else if isHunkHeader line then (flushHunk f hunk, line ++ ['\n'])
  else if isAddLine line then ({ f with added_lines := f.added_lines + 1 }, hunk ++ line ++ ['\n'])
  else if isRemLine line then ({ f with removed_lines := f.removed_lines + 1 }, hunk ++ line ++ ['\n'])
  else (f, hunk ++ line ++ ['\n'])

/-- Run the in-section step over a list of body lines. -/
def sectionRun : DiffFile → List Char → List (List Char) → DiffFile × List Char
  | f, hunk, [] => (f, hunk)
  | f, hunk, l :: ls => sectionRun (sectionStep f hunk l).1 (sectionStep f hunk l).2 ls

/-- The `DiffFile` produced for one header line and the body of its section. -/
def mkSection (header : List Char) (body : List (List Char)) : DiffFile :=
  flushHunk (sectionRun (newFile header) [] body).1 (sectionRun (newFile header) [] body).2

/-- Worker splitting a line list into `(header, body)` sections. -/
def splitSecGo : List (List Char) → Option (List Char × List (List Char)) →
    List (List Char × List (List Char))
  | [], none => []
  | [], some s => [(s.1, s.2.reverse)]
  | l :: ls, cur =>
    if isHeaderLine l then
      match cur with
      | none => splitSecGo ls (some (l, []))
      | some s => (s.1, s.2.reverse) :: splitSecGo ls (some (l, []))
    else
      match cur with
      | none => splitSecGo ls none
      | some s => splitSecGo ls (some (s.1, l :: s.2))

/-- Split a line list into its file sections: one `(header line, body lines)`
pair per `diff --git ` header, the body running up to the next header. -/
def splitSections (ls : List (List Char)) : List (List Char × List (List Char)) :=
  splitSecGo ls none

/-- The hunk strings a section body contributes, tracking only the pending
hunk accumulator (including the final flush). -/
def hunkPiecesF : List Char → List (List Char) → List (List Char)
  | hunk, [] => if hunk = [] then [] else [hunk]
  | hunk, l :: ls =>
    if isSkipLine l then hunkPiecesF hunk ls
    else if isHunkHeader l then
      (if hunk = [] then [] else [hunk]) ++ hunkPiecesF (l ++ ['\n']) ls
    else hunkPiecesF (hunk ++ l ++ ['\n']) ls

/-! ## JSON values and the model of `serde_json::from_str` -/

/-- JSON values as produced by `serde_json` (numbers modelled exactly
as rationals). -/
inductive Json where
  | null
  | bool (b : Bool)
  | num (q : ℚ)
  | str (s : List Char)
  | arr (elems : List Json)
  | obj (fields : List (List Char × Json))

/-- JSON insignificant whitespace. -/
def jsonWsChar (c : Char) : Bool :=
  c == ' ' || c == '\t' || c == '\n' || c == '\r'

/-- Drop leading JSON whitespace. -/
def skipWs (s : List Char) : List Char := s.dropWhile jsonWsChar

/-- Value of one hexadecimal digit. -/
def hexVal (c : Char) : Option Nat :=
  if '0' ≤ c ∧ c ≤ '9' then some (c.toNat - '0'.toNat)
  else if 'a' ≤ c ∧ c ≤ 'f' then some (c.toNat - 'a'.toNat + 10)
  else if 'A' ≤ c ∧ c ≤ 'F' then some (c.toNat - 'A'.toNat + 10)
  else none

/-- Value of a four-digit hexadecimal escape. -/
def hex4 (a b c d : Char) : Option Nat :=
  match hexVal a, hexVal b, hexVal c, hexVal d with
  | some x, some y, some z, some w => some (((x * 16 + y) * 16 + z) * 16 + w)
  | _, _, _, _ => none

/-- Single-character JSON string escapes. -/
def escChar (e : Char) : Option Char :=
  if e == '"' then some '"'
  else if e == '\\' then some '\\'
  else if e == '/' then some '/'
  else if e == 'b' then some (Char.ofNat 8)
  else if e == 'f' then some (Char.ofNat 12)
  else if e == 'n' then some '\n'
  else if e == 'r' then some '\r'
  else if e == 't' then some '\t'
  else none

/-- Parse the body of a JSON string (after the opening quote) up to the
closing quote, decoding escapes, rejecting raw control characters and
lone surrogates as `serde_json` does. -/
def parseStringBody : Nat → List Char → Option (List Char × List Char)
  | 0, _ => none
  | fuel + 1, s =>
    match s with
    | [] => none
    | c :: rest =>
      if c == '"' then some ([], rest)
      else if c == '\\' then
        match rest with
        | [] => none
        | e :: rest2 =>
          match escChar e with
          | some d => (parseStringBody fuel rest2).map (fun p => (d :: p.1, p.2))
          | none =>
            if e == 'u' then
              match rest2 with
              | h1 :: h2 :: h3 :: h4 :: rest3 =>
                match hex4 h1 h2 h3 h4 with
                | none => none
                | some n =>
                  if 0xD800 ≤ n ∧ n ≤ 0xDBFF then
                    match rest3 with
                    | '\\' :: 'u' :: k1 :: k2 :: k3 :: k4 :: rest4 =>
                      match hex4 k1 k2 k3 k4 with
                      | none => none
                      | some m =>
                        if 0xDC00 ≤ m ∧ m ≤ 0xDFFF then
                          (parseStringBody fuel rest4).map
                            (fun p => (Char.ofNat (0x10000 + (n - 0xD800) * 0x400 + (m - 0xDC00)) :: p.1, p.2))
                        else none
                    | _ => none
                  else if 0xDC00 ≤ n ∧ n ≤ 0xDFFF then none
                  else (parseStringBody fuel rest3).map (fun p => (Char.ofNat n :: p.1, p.2))
              | _ => none
            else none
      else if c.toNat < 0x20 then none
      else (parseStringBody fuel rest).map (fun p => (c :: p.1, p.2))

/-- Decimal digits to a natural number. -/
def digitsToNat (ds : List Char) : Nat :=
  ds.foldl (fun n c => n * 10 + (c.toNat - '0'.toNat)) 0

/-- Assemble a JSON number from its parsed parts: the exact rational
`sign * (intD.fracD) * 10 ^ (exp sign * expD)`. -/
def parseNumAfter (neg : Bool) (intD fracD : List Char) (expNeg : Bool) (expD : List Char) : ℚ :=
  let m : Nat := digitsToNat intD * 10 ^ fracD.length + digitsToNat fracD
  let sgn : Int := if neg then -(m : Int) else (m : Int)
  let e : Nat := digitsToNat expD
  if expNeg then mkRat sgn (10 ^ (fracD.length + e))
  else mkRat (sgn * ((10 ^ e : Nat) : Int)) (10 ^ fracD.length)

/-- Parse the optional exponent sign and digits. -/
def parseNumExpSign (neg : Bool) (intD fracD : List Char) (s : List Char) : Option (ℚ × List Char) :=
  let p : Bool × List Char :=
    match s with
    | '+' :: r => (false, r)
    | '-' :: r => (true, r)
    | _ => (false, s)
  let ed := p.2.takeWhile Char.isDigit
  if ed.isEmpty then none
  else some (parseNumAfter neg intD fracD p.1 ed, p.2.dropWhile Char.isDigit)

/-- Parse the optional exponent marker. -/
def parseNumExp (neg : Bool) (intD fracD : List Char) (s : List Char) : Option (ℚ × List Char) :=
  match s with
  | 'e' :: r => parseNumExpSign neg intD fracD r
  | 'E' :: r => parseNumExpSign neg intD fracD r
  | _ => some (parseNumAfter neg intD fracD false [], s)

/-- Parse a JSON number (leading-zero and bare-dot forms rejected as in
`serde_json`). -/
def parseNumber (s : List Char) : Option (ℚ × List Char) :=
  let p : Bool × List Char :=
    match s with
    | '-' :: r => (true, r)
    | _ => (false, s)
  let intD := p.2.takeWhile Char.isDigit
  let s2 := p.2.dropWhile Char.isDigit
  if intD.isEmpty then none
  else if 2 ≤ intD.length && intD.head? == some '0' then none
  else
    match s2 with
    | '.' :: r =>
      let fd := r.takeWhile Char.isDigit
      if fd.isEmpty then none
      else parseNumExp p.1 intD fd (r.dropWhile Char.isDigit)
    | _ => parseNumExp p.1 intD [] s2

/-- Parser mode: a whole value, remaining array elements, or remaining
object fields. -/
inductive PMode where
  | val
  | arrElems (acc : List Json)
  | objFields (acc : List (List Char × Json))

/-- Recursive-descent JSON parser (fuel-indexed). -/
def parseJ : Nat → PMode → List Char → Option (Json × List Char)
  | 0, _, _ => none
  | fuel + 1, .val, s0 =>
    match skipWs s0 with
    | [] => none
    | c :: rest =>
      if c == 'n' then
        if startsW (str "ull") rest then some (.null, rest.drop 3) else none
      else if c == 't' then
        if startsW (str "rue") rest then some (.bool true, rest.drop 3) else none
      else if c == 'f' then
        if startsW (str "alse") rest then some (.bool false, rest.drop 4) else none
      else if c == '"' then
        (parseStringBody (rest.length + 1) rest).map (fun p => (.str p.1, p.2))
      else if c == '[' then
        match skipWs rest with
        | ']' :: r2 => some (.arr [], r2)
        | r2 => parseJ fuel (.arrElems []) r2
      else if c == lbrace then
        let r2 := skipWs rest
        if r2.head? == some rbrace then some (.obj [], r2.tail)
        else parseJ fuel (.objFields []) r2
      else if c == '-' || c.isDigit then
        (parseNumber (c :: rest)).map (fun p => (.num p.1, p.2))
      else none
  | fuel + 1, .arrElems acc, s =>
    match parseJ fuel .val s with
    | none => none
    | some (v, r) =>
      match skipWs r with
      | ',' :: r2 => parseJ fuel (.arrElems (v :: acc)) r2
      | ']' :: r2 => some (.arr (v :: acc).reverse, r2)
      | _ => none
  | fuel + 1, .objFields acc, s =>
    match skipWs s with
    | '"' :: r =>
      match parseStringBody (r.length + 1) r with
      | none => none
      | some (key, r2) =>
        match skipWs r2 with
        | ':' :: r3 =>
          match parseJ fuel .val r3 with
          | none => none
          | some (v, r4) =>
            match skipWs r4 with
            | c5 :: r5 =>
              if c5 == ',' then parseJ fuel (.objFields ((key, v) :: acc)) r5
              else if c5 == rbrace then some (.obj ((key, v) :: acc).reverse, r5)
              else none
            | [] => none
        | _ => none
    | _ => none

/-- The model of `serde_json::from_str::<serde_json::Value>`: parse one
value and require only whitespace to remain. -/
def jsonParse (s : List Char) : Option Json :=
  match parseJ (2 * s.length + 8) .val s with
  | some (v, rest) => if skipWs rest = [] then some v else none
  | none => none

/-- Rust `char::is_whitespace` (the Unicode White_Space property). -/
def isRustWs (c : Char) : Bool :=
  c == ' ' || c == '\t' || c == '\n' || c == '\r' ||
  c == Char.ofNat 0x0B || c == Char.ofNat 0x0C || c == Char.ofNat 0x85 ||
  c == Char.ofNat 0xA0 || c == Char.ofNat 0x1680 ||
  (Char.ofNat 0x2000 ≤ c && c ≤ Char.ofNat 0x200A) ||
  c == Char.ofNat 0x2028 || c == Char.ofNat 0x2029 ||
  c == Char.ofNat 0x202F || c == Char.ofNat 0x205F || c == Char.ofNat 0x3000

/-- The model of Rust `str::trim`. -/
def rustTrim (s : List Char) : List Char :=
  ((s.dropWhile isRustWs).reverse.dropWhile isRustWs).reverse

/-- `serde_json`'s square-bracket indexing `value[key]`: field of an
object (last duplicate wins), `Null` on a missing key or a non-object. -/
def jget (v : Json) (key : List Char) : Json :=
  match v with
  | .obj fields =>
    match fields.reverse.find? (fun p => p.1 == key) with
    | some p => p.2
    | none => .null
  | _ => .null

/-- `Value::as_str`. -/
def jAsStr : Json → Option (List Char)
  | .str s => some s
  | _ => none

/-- `Value::as_array`. -/
def jAsArr : Json → Option (List Json)
  | .arr xs => some xs
  | _ => none

/-- `Value::as_f64` (all `serde_json` numbers are numeric). -/
def jAsNum : Json → Option ℚ
  | .num q => some q
  | _ => none

/-- Whether a JSON value is an object. -/
def jIsObj : Json → Bool
  | .obj _ => true
  | _ => false

/-! ## The protocol result types (`protocol.rs`) -/

/-- `SuggestedAction` from `protocol.rs`. -/
structure SuggestedAction where
  label : List Char
  explanation : List Char
deriving DecidableEq, Repr

/-- `ImpactedFile` from `protocol.rs` (`f32` scores modelled as exact
rationals). -/
structure ImpactedFile where
  path : List Char
  score : ℚ
  why : List (List Char)
deriving DecidableEq, Repr

/-- `ImpactedSymbol` from `protocol.rs` (never constructed by this core). -/
structure ImpactedSymbol where
  name : List Char
  kind : List Char
  file : List Char
  score : ℚ
deriving DecidableEq, Repr

/-- `AnalysisResult` from `protocol.rs`. -/
structure AnalysisResult where
  summary : List (List Char)
  risk_level : List Char
  risk_reasons : List (List Char)
  impacted_files : List ImpactedFile
  impacted_symbols : List ImpactedSymbol
  suggested_actions : List SuggestedAction
  confidence : ℚ
deriving DecidableEq, Repr

/-! ## The extractor and scorer (`impact.rs`) -/

/-- `normalize_score` from `impact.rs`. -/
def normalize_score (lines : Nat) : ℚ :=
  if lines ≤ 10 then 3 / 10
  else if lines ≤ 50 then 6 / 10
  else 9 / 10

/-- Index of the first occurrence of a character (Rust `str::find`). -/
def firstIdx (c : Char) : List Char → Option Nat
  | [] => none
  | x :: xs => if x = c then some 0 else (firstIdx c xs).map (· + 1)

/-- Index of the last occurrence of a character (Rust `str::rfind`). -/
def lastIdx (c : Char) : List Char → Option Nat
  | [] => none
  | x :: xs =>
    match lastIdx c xs with
    | some i => some (i + 1)
    | none => if x = c then some 0 else none

/-- The model of `extract_json` from `impact.rs`: slice from the first
opening brace to the last closing brace inclusive when both exist,
otherwise the whole text.  The Rust slice `raw[start..=end]` panics when
`start > end + 1`; that case is `none`. -/
def extract_json (raw : List Char) : Option (List Char) :=
  match firstIdx lbrace raw with
  | some s =>
    match lastIdx rbrace raw with
    | some e =>
      if s ≤ e + 1 then some ((raw.take (e + 1)).drop s) else none
    | none => some raw
  | none => some raw

/-- The fallback object substituted when the candidate fails to parse. -/
def fallbackJson : Json :=
  .obj [(str "summary", .arr [.str (str "Changes analyzed (LLM parse error)")]),
        (str "risk_level", .str (str "low")),
        (str "risk_reasons", .arr []),
        (str "suggested_actions", .arr [])]

/-- Decimal rendering of a natural number (Rust `Display` for `usize`). -/
def natChars (n : Nat) : List Char := (Nat.repr n).data

/-- The `why` string `"+{added} -{removed} lines"`. -/
def whyLine (added removed : Nat) : List Char :=
  str "+" ++ natChars added ++ str " -" ++ natChars removed ++ str " lines"

/-- The `ImpactedFile` computed from one `DiffFile` in
`parse_analysis_json`. -/
def toImpactedFile (f : DiffFile) : ImpactedFile :=
  { path := f.path,
    score := normalize_score (f.added_lines + f.removed_lines),
    why := [whyLine f.added_lines f.removed_lines] }

/-- Extraction of one `suggested_actions` entry: the entry is dropped when
`label` is not a string, a missing `explanation` becomes the empty string. -/
def toSuggestedAction (x : Json) : Option SuggestedAction :=
  match jAsStr (jget x (str "label")) with
  | some lbl => some { label := lbl, explanation := (jAsStr (jget x (str "explanation"))).getD [] }
  | none => none

/-- The model of `parse_analysis_json` from `impact.rs`.  `none` models the
panic propagated out of `extract_json`. -/
def parse_analysis_json (text : List Char) (files : List DiffFile) : Option AnalysisResult :=
  match extract_json text with
  | none => none
  | some json_str =>
    let parsed := (jsonParse (rustTrim json_str)).getD fallbackJson
    some
      { summary := ((jAsArr (jget parsed (str "summary"))).map
          (fun a => a.filterMap jAsStr)).getD [str "Analysis complete"],
        risk_level := (jAsStr (jget parsed (str "risk_level"))).getD (str "low"),
        risk_reasons := ((jAsArr (jget parsed (str "risk_reasons"))).map
          (fun a => a.filterMap jAsStr)).getD [],
        impacted_files := files.map toImpactedFile,
        impacted_symbols := [],
        suggested_actions := ((jAsArr (jget parsed (str "suggested_actions"))).map
          (fun a => a.filterMap toSuggestedAction)).getD [],
        confidence := (jAsNum (jget parsed (str "confidence"))).getD (3 / 4) }

/-- The model of `build_prompt` from `impact.rs`. -/
def build_prompt (files : List DiffFile) (raw_diff : List Char) : List Char :=
  let file_summary := files.map (fun f =>
    f.path ++ str " (+" ++ natChars f.added_lines ++ str " -" ++ natChars f.removed_lines ++ str ")")
  let diff_excerpt :=
    if 3000 < raw_diff.length then raw_diff.take 3000 ++ str "...[truncated]"
    else raw_diff
  str "Files changed:\n" ++ List.intercalate (str "\n") file_summary ++
    str "\n\nDiff:\n```\n" ++ diff_excerpt ++ str "\n```"

/-! ## Spec-side definitions (used to state the claims, written from the
spec's words, to be compared with the code-side definitions above) -/

/-- Modelled from the spec: the JSON-candidate isolation described in
section 4.4 — "find the first `\x7b` and the last `\x7d`; if both exist,
take that inclusive substring as the candidate; otherwise the candidate is
the full text unchanged". -/
def extract_jsonSpec (raw : List Char) : List Char :=
  match firstIdx lbrace raw, lastIdx rbrace raw with
  | some s, some e => (raw.take (e + 1)).drop s
  | _, _ => raw

/-- Modelled from the spec: a counted added line per claim C2's wording —
"lines that start with `+` excluding the add-file marker line (`+++ `)". -/
def claimAddPred (l : List Char) : Bool :=
  startsW ['+'] l && !startsW (str "+++ ") l

/-- Modelled from the spec: a counted removed line per claim C2's wording —
"lines starting with `-` excluding the remove-file marker line (`--- `)". -/
def claimRemPred (l : List Char) : Bool :=
  startsW ['-'] l && !startsW (str "--- ") l

/-- The fixed two-section prompt layout header described in spec 4.2. -/
def promptHeader (files : List DiffFile) : List Char :=
  str "Files changed:\n" ++
    List.intercalate (str "\n")
      (files.map (fun f =>
        f.path ++ str " (+" ++ natChars f.added_lines ++ str " -" ++ natChars f.removed_lines ++ str ")")) ++
    str "\n\nDiff:\n```\n"

/-! # Lemmas -/

theorem startsW_cons {c : Char} {p l : List Char} (h : startsW (c :: p) l = true) :
    ∃ l', l = c :: l' ∧ startsW p l' = true := by
  cases l with
  | nil => simp [startsW] at h
  | cons d l' =>
    simp only [startsW, Bool.and_eq_true, beq_iff_eq] at h
    exact ⟨l', by rw [h.1], h.2⟩

theorem startsW_head_ne {p l : List Char} (q : List Char) {c d : Char}
    (h : startsW p l = true) (hp : p.head? = some c) (hq : q.head? = some d)
    (hcd : ¬ d = c) : startsW q l = false := by
  cases p with
  | nil => simp at hp
  | cons c' p' =>
    cases q with
    | nil => simp at hq
    | cons d' q' =>
      simp only [List.head?_cons, Option.some.injEq] at hp hq
      subst hp; subst hq
      obtain ⟨l', rfl, -⟩ := startsW_cons h
      simp only [startsW, Bool.and_eq_false_iff]
      exact Or.inl (by simpa using hcd)

theorem startsW_shrink : ∀ {p q l : List Char}, startsW (p ++ q) l = true → startsW p l = true := by
  intro p
  induction p with
  | nil => intro q l _; rfl
  | cons c p' ih =>
    intro q l h
    obtain ⟨l', rfl, h'⟩ := startsW_cons h
    simpa [startsW] using ih h'

theorem hdr_not_skip {l : List Char} (h : isHeaderLine l = true) : isSkipLine l = false := by
  unfold isHeaderLine at h
  unfold isSkipLine
  rw [startsW_head_ne (str "--- ") h rfl rfl (by decide),
    startsW_head_ne (str "+++ ") h rfl rfl (by decide)]
  rfl

theorem skip_not_hdr {l : List Char} (h : isSkipLine l = true) : isHeaderLine l = false := by
  unfold isSkipLine at h
  unfold isHeaderLine
  rcases Bool.or_eq_true_iff.mp h with h1 | h1
  · exact startsW_head_ne _ h1 rfl rfl (by decide)
  · exact startsW_head_ne _ h1 rfl rfl (by decide)

theorem skip_not_hunk {l : List Char} (h : isSkipLine l = true) : isHunkHeader l = false := by
  unfold isSkipLine at h
  unfold isHunkHeader
  rcases Bool.or_eq_true_iff.mp h with h1 | h1
  · exact startsW_head_ne _ h1 rfl rfl (by decide)
  · exact startsW_head_ne _ h1 rfl rfl (by decide)

theorem skip_not_add {l : List Char} (h : isSkipLine l = true) : isAddLine l = false := by
  unfold isSkipLine at h
  unfold isAddLine
  rcases Bool.or_eq_true_iff.mp h with h1 | h1
  · rw [startsW_head_ne ['+'] h1 rfl rfl (by decide)]
    rfl
  · rw [show str "+++ " = str "+++" ++ [' '] from rfl] at h1
    rw [startsW_shrink h1]
    simp

theorem skip_not_rem {l : List Char} (h : isSkipLine l = true) : isRemLine l = false := by
  unfold isSkipLine at h
  unfold isRemLine
  rcases Bool.or_eq_true_iff.mp h with h1 | h1
  · rw [show str "--- " = str "---" ++ [' '] from rfl] at h1
    rw [startsW_shrink h1]
    simp
  · rw [startsW_head_ne ['-'] h1 rfl rfl (by decide)]
    rfl

theorem hunk_not_add {l : List Char} (h : isHunkHeader l = true) : isAddLine l = false := by
  unfold isHunkHeader at h
  unfold isAddLine
  rw [startsW_head_ne ['+'] h rfl rfl (by decide)]
  rfl

theorem hunk_not_rem {l : List Char} (h : isHunkHeader l = true) : isRemLine l = false := by
  unfold isHunkHeader at h
  unfold isRemLine
  rw [startsW_head_ne ['-'] h rfl rfl (by decide)]
  rfl

theorem add_not_rem {l : List Char} (h : isAddLine l = true) : isRemLine l = false := by
  unfold isAddLine at h
  unfold isRemLine
  rw [startsW_head_ne ['-'] (Bool.and_eq_true_iff.mp h).1 rfl rfl (by decide)]
  rfl

/-- Characterization of the section-splitting worker with an open section. -/
theorem splitSecGo_some : ∀ (ls : List (List Char)) (h : List Char) (acc : List (List Char)),
    splitSecGo ls (some (h, acc)) =
      (h, acc.reverse ++ ls.takeWhile (fun x => !isHeaderLine x)) ::
        splitSections (ls.dropWhile (fun x => !isHeaderLine x)) := by
  intro ls
  induction ls with
  | nil => intro h acc; simp [splitSecGo, splitSections]
  | cons l ls ih =>
    intro h acc
    by_cases hl : isHeaderLine l = true
    · simp only [splitSecGo, hl, if_true, List.takeWhile_cons, List.dropWhile_cons,
        Bool.not_eq_eq_eq_not, Bool.not_true, hl]
      simp only [splitSections, splitSecGo, hl, if_true]
      simp
    · have hl' : isHeaderLine l = false := by simpa using hl
      simp only [splitSecGo, hl', if_false, Bool.false_eq_true]
      rw [ih]
      simp [List.takeWhile_cons, List.dropWhile_cons, hl']

/-- Unfolding rule for `splitSections`. -/
theorem splitSections_cons (l : List Char) (ls : List (List Char)) :
    splitSections (l :: ls) =
      if isHeaderLine l then
        (l, ls.takeWhile (fun x => !isHeaderLine x)) ::
          splitSections (ls.dropWhile (fun x => !isHeaderLine x))
      else splitSections ls := by
  by_cases hl : isHeaderLine l = true
  · simp only [splitSections, splitSecGo, hl, if_true]
    rw [splitSecGo_some]
    simp only [List.reverse_nil, List.nil_append, hl, if_true]
    rfl
  · have hl' : isHeaderLine l = false := by simpa using hl
    simp [splitSections, splitSecGo, hl']

theorem splitSections_nil : splitSections [] = [] := rfl

theorem flushHunk_path (f : DiffFile) (h : List Char) : (flushHunk f h).path = f.path := by
  unfold flushHunk; split <;> rfl

theorem flushHunk_added (f : DiffFile) (h : List Char) :
    (flushHunk f h).added_lines = f.added_lines := by
  unfold flushHunk; split <;> rfl

theorem flushHunk_removed (f : DiffFile) (h : List Char) :
    (flushHunk f h).removed_lines = f.removed_lines := by
  unfold flushHunk; split <;> rfl

theorem flushHunk_hunks (f : DiffFile) (h : List Char) :
    (flushHunk f h).hunks = f.hunks ++ (if h = [] then [] else [h]) := by
  unfold flushHunk; split <;> simp_all

theorem sectionStep_path (f : DiffFile) (hunk l : List Char) :
    (sectionStep f hunk l).1.path = f.path := by
  unfold sectionStep
  split_ifs <;> simp [flushHunk_path]

theorem sectionStep_added (f : DiffFile) (hunk l : List Char) :
    (sectionStep f hunk l).1.added_lines = f.added_lines + (if isAddLine l then 1 else 0) := by
  cases h1 : isSkipLine l with
  | true => simp [sectionStep, h1, skip_not_add h1]
  | false =>
    cases h2 : isHunkHeader l with
    | true => simp [sectionStep, h1, h2, hunk_not_add h2, flushHunk_added]
    | false =>
      cases h3 : isAddLine l with
      | true => simp [sectionStep, h1, h2, h3]
      | false =>
        cases h4 : isRemLine l with
        | true => simp [sectionStep, h1, h2, h3, h4]
        | false => simp [sectionStep, h1, h2, h3, h4]

theorem sectionStep_removed (f : DiffFile) (hunk l : List Char) :
    (sectionStep f hunk l).1.removed_lines = f.removed_lines + (if isRemLine l then 1 else 0) := by
  cases h1 : isSkipLine l with
  | true => simp [sectionStep, h1, skip_not_rem h1]
  | false =>
    cases h2 : isHunkHeader l with
    | true => simp [sectionStep, h1, h2, hunk_not_rem h2, flushHunk_removed]
    | false =>
      cases h3 : isAddLine l with
      | true => simp [sectionStep, h1, h2, h3, add_not_rem h3]
      | false =>
        cases h4 : isRemLine l with
        | true => simp [sectionStep, h1, h2, h3, h4]
        | false => simp [sectionStep, h1, h2, h3, h4]

theorem sectionRun_path : ∀ (body : List (List Char)) (f : DiffFile) (hunk : List Char),
    (sectionRun f hunk body).1.path = f.path := by
  intro body
  induction body with
  | nil => intro f hunk; rfl
  | cons l ls ih =>
    intro f hunk
    show (sectionRun (sectionStep f hunk l).1 (sectionStep f hunk l).2 ls).1.path = _
    rw [ih, sectionStep_path]

theorem sectionRun_added : ∀ (body : List (List Char)) (f : DiffFile) (hunk : List Char),
    (sectionRun f hunk body).1.added_lines = f.added_lines + body.countP isAddLine := by
  intro body
  induction body with
  | nil => intro f hunk; simp [sectionRun]
  | cons l ls ih =>
    intro f hunk
    show (sectionRun (sectionStep f hunk l).1 (sectionStep f hunk l).2 ls).1.added_lines = _
    rw [ih, sectionStep_added, List.countP_cons]
    omega

theorem sectionRun_removed : ∀ (body : List (List Char)) (f : DiffFile) (hunk : List Char),
    (sectionRun f hunk body).1.removed_lines = f.removed_lines + body.countP isRemLine := by
  intro body
  induction body with
  | nil => intro f hunk; simp [sectionRun]
  | cons l ls ih =>
    intro f hunk
    show (sectionRun (sectionStep f hunk l).1 (sectionStep f hunk l).2 ls).1.removed_lines = _
    rw [ih, sectionStep_removed, List.countP_cons]
    omega

theorem sectionRun_flush_hunks : ∀ (body : List (List Char)) (f : DiffFile) (hunk : List Char),
    (flushHunk (sectionRun f hunk body).1 (sectionRun f hunk body).2).hunks =
      f.hunks ++ hunkPiecesF hunk body := by
  intro body
  induction body with
  | nil => intro f hunk; simp [sectionRun, hunkPiecesF, flushHunk_hunks]
  | cons l ls ih =>
    intro f hunk
    show (flushHunk (sectionRun (sectionStep f hunk l).1 (sectionStep f hunk l).2 ls).1
        (sectionRun (sectionStep f hunk l).1 (sectionStep f hunk l).2 ls).2).hunks = _
    rw [ih]
    cases h1 : isSkipLine l with
    | true => simp [sectionStep, hunkPiecesF, h1]
    | false =>
      cases h2 : isHunkHeader l with
      | true => simp [sectionStep, hunkPiecesF, h1, h2, flushHunk_hunks]
      | false =>
        cases h3 : isAddLine l with
        | true => simp [sectionStep, hunkPiecesF, h1, h2, h3]
        | false =>
          cases h4 : isRemLine l with
          | true => simp [sectionStep, hunkPiecesF, h1, h2, h3, h4]
          | false => simp [sectionStep, hunkPiecesF, h1, h2, h3, h4]

theorem hunkPiecesF_len_ne : ∀ (body : List (List Char)) (hunk : List Char), hunk ≠ [] →
    (hunkPiecesF hunk body).length = body.countP isHunkHeader + 1 := by
  intro body
  induction body with
  | nil => intro hunk h; simp [hunkPiecesF, h]
  | cons l ls ih =>
    intro hunk h
    unfold hunkPiecesF
    split_ifs with h1 h2
    · rw [ih hunk h, List.countP_cons, skip_not_hunk h1]
      simp
    · rw [List.length_append, ih (l ++ ['\n']) (by simp), List.countP_cons, h2]
      simp [h]
      omega
    · rw [ih (hunk ++ l ++ ['\n']) (by simp), List.countP_cons]
      have h2' : isHunkHeader l = false := by simpa using h2
      simp [h2']

theorem hunkPiecesF_len_marked : ∀ (body : List (List Char)),
    (∀ l ∈ body.takeWhile (fun x => !isHunkHeader x), isSkipLine l = true) →
    1 ≤ body.countP isHunkHeader →
    (hunkPiecesF [] body).length = body.countP isHunkHeader := by
  intro body
  induction body with
  | nil => intro _ hk; simp at hk
  | cons l ls ih =>
    intro hpre hk
    by_cases hH : isHunkHeader l = true
    · have hS : isSkipLine l = false := by
        cases hs : isSkipLine l
        · rfl
        · rw [skip_not_hunk hs] at hH
          cases hH
      unfold hunkPiecesF
      rw [if_neg (by simp [hS]), if_pos hH, if_pos rfl]
      rw [List.nil_append, hunkPiecesF_len_ne ls (l ++ ['\n']) (by simp), List.countP_cons, hH]
      simp
    · have hH' : isHunkHeader l = false := by simpa using hH
      have hS : isSkipLine l = true := by
        apply hpre
        rw [List.takeWhile_cons_of_pos (by simp [hH'])]
        exact List.mem_cons_self _ _
      unfold hunkPiecesF
      rw [if_pos hS]
      rw [List.countP_cons, hH'] at hk ⊢
      simp only [if_false, Bool.false_eq_true, Nat.add_zero] at hk ⊢
      apply ih
      · intro x hx
        apply hpre
        rw [List.takeWhile_cons_of_pos (by simp [hH'])]
        exact List.mem_cons_of_mem _ hx
      · exact hk

theorem parseDiffGo_cons_some {line : List Char} (hH : isHeaderLine line = false)
    (rest : List (List Char)) (f : DiffFile) (hunk : List Char) :
    parseDiffGo (line :: rest) (some f) hunk =
      parseDiffGo rest (some (sectionStep f hunk line).1) (sectionStep f hunk line).2 := by
  cases h1 : isSkipLine line with
  | true => simp [parseDiffGo, sectionStep, h1]
  | false =>
    cases h2 : isHunkHeader line with
    | true => simp [parseDiffGo, sectionStep, h1, h2, hH]
    | false =>
      cases h3 : isAddLine line with
      | true => simp [parseDiffGo, sectionStep, h1, h2, h3, hH]
      | false =>
        cases h4 : isRemLine line with
        | true => simp [parseDiffGo, sectionStep, h1, h2, h3, h4, hH]
        | false => simp [parseDiffGo, sectionStep, h1, h2, h3, h4, hH]

theorem parseDiffGo_some_eq : ∀ (ls : List (List Char)) (f : DiffFile) (hunk : List Char),
    parseDiffGo ls (some f) hunk =
      flushHunk (sectionRun f hunk (ls.takeWhile (fun x => !isHeaderLine x))).1
          (sectionRun f hunk (ls.takeWhile (fun x => !isHeaderLine x))).2 ::
        (splitSections (ls.dropWhile (fun x => !isHeaderLine x))).map
          (fun s => mkSection s.1 s.2) := by
  intro ls
  induction ls with
  | nil => intro f hunk; simp [parseDiffGo, sectionRun, splitSections, splitSecGo]
  | cons l ls ih =>
    intro f hunk
    by_cases hH : isHeaderLine l = true
    · rw [List.takeWhile_cons_of_neg (by simp [hH]), List.dropWhile_cons_of_neg (by simp [hH])]
      have hS := hdr_not_skip hH
      simp only [parseDiffGo, hS, Bool.false_eq_true, if_false, hH, if_true]
      rw [splitSections_cons, if_pos hH, List.map_cons]
      rw [ih (newFile l) []]
      rfl
    · have hH' : isHeaderLine l = false := by simpa using hH
      rw [List.takeWhile_cons_of_pos (by simp [hH']), List.dropWhile_cons_of_pos (by simp [hH'])]
      rw [parseDiffGo_cons_some hH', ih]
      rfl

theorem parseDiffGo_none_eq : ∀ ls : List (List Char),
    parseDiffGo ls none [] = (splitSections ls).map (fun s => mkSection s.1 s.2) := by
  intro ls
  induction ls with
  | nil => rfl
  | cons l ls ih =>
    by_cases hH : isHeaderLine l = true
    · have hS := hdr_not_skip hH
      simp only [parseDiffGo, hS, Bool.false_eq_true, if_false, hH, if_true]
      rw [splitSections_cons, if_pos hH, List.map_cons]
      rw [parseDiffGo_some_eq ls (newFile l) []]
      rfl
    · have hH' : isHeaderLine l = false := by simpa using hH
      rw [splitSections_cons, if_neg hH]
      cases h1 : isSkipLine l with
      | true => simpa [parseDiffGo, h1] using ih
      | false => simpa [parseDiffGo, h1, hH'] using ih

/-- Decomposition of the parser: one `DiffFile` per header section, each
computed from that section's body alone. -/
theorem parse_diff_eq_sections (raw : List Char) :
    parse_diff raw = (splitSections (rustLines raw)).map (fun s => mkSection s.1 s.2) :=
  parseDiffGo_none_eq _

theorem splitSecGo_some_fst : ∀ (ls : List (List Char)) (h : List Char) (acc : List (List Char)),
    (splitSecGo ls (some (h, acc))).map Prod.fst = h :: ls.filter isHeaderLine := by
  intro ls
  induction ls with
  | nil => intro h acc; simp [splitSecGo]
  | cons l ls ih =>
    intro h acc
    by_cases hH : isHeaderLine l = true
    · simp only [splitSecGo, hH, if_true, List.map_cons, ih]
      simp [List.filter_cons, hH]
    · have hH' : isHeaderLine l = false := by simpa using hH
      simp only [splitSecGo, hH', Bool.false_eq_true, if_false, ih]
      simp [List.filter_cons, hH']

theorem splitSections_fst : ∀ ls : List (List Char),
    (splitSections ls).map Prod.fst = ls.filter isHeaderLine := by
  intro ls
  induction ls with
  | nil => rfl
  | cons l ls ih =>
    by_cases hH : isHeaderLine l = true
    · simp only [splitSections, splitSecGo, hH, if_true]
      rw [splitSecGo_some_fst]
      simp [List.filter_cons, hH]
    · have hH' : isHeaderLine l = false := by simpa using hH
      simp only [splitSections, splitSecGo, hH', Bool.false_eq_true, if_false]
      rw [show splitSecGo ls none = splitSections ls from rfl, ih]
      simp [List.filter_cons, hH']

theorem mkSection_path (h : List Char) (body : List (List Char)) :
    (mkSection h body).path = headerPath h := by
  unfold mkSection
  rw [flushHunk_path, sectionRun_path]
  rfl

theorem mkSection_added (h : List Char) (body : List (List Char)) :
    (mkSection h body).added_lines = body.countP isAddLine := by
  unfold mkSection
  rw [flushHunk_added, sectionRun_added]
  simp [newFile]

theorem mkSection_removed (h : List Char) (body : List (List Char)) :
    (mkSection h body).removed_lines = body.countP isRemLine := by
  unfold mkSection
  rw [flushHunk_removed, sectionRun_removed]
  simp [newFile]

theorem mkSection_hunks (h : List Char) (body : List (List Char)) :
    (mkSection h body).hunks = hunkPiecesF [] body := by
  unfold mkSection
  rw [sectionRun_flush_hunks]
  rfl

theorem firstIdx_nil (c : Char) : firstIdx c [] = none := rfl

theorem firstIdx_cons (c x : Char) (xs : List Char) :
    firstIdx c (x :: xs) = if x = c then some 0 else (firstIdx c xs).map (· + 1) := rfl

theorem lastIdx_nil (c : Char) : lastIdx c [] = none := rfl

theorem lastIdx_cons (c x : Char) (xs : List Char) :
    lastIdx c (x :: xs) =
      match lastIdx c xs with
      | some i => some (i + 1)
      | none => if x = c then some 0 else none := rfl

theorem firstIdx_eq_none {c : Char} : ∀ {l : List Char}, c ∉ l → firstIdx c l = none := by
  intro l
  induction l with
  | nil => intro _; rfl
  | cons x xs ih =>
    intro h
    rw [firstIdx_cons, if_neg (fun hx => h (List.mem_cons.mpr (Or.inl hx.symm))),
      ih (fun hx => h (List.mem_cons_of_mem _ hx))]
    rfl

theorem firstIdx_append_none {c : Char} : ∀ {pre : List Char}, firstIdx c pre = none →
    ∀ l : List Char, firstIdx c (pre ++ l) = (firstIdx c l).map (pre.length + ·) := by
  intro pre
  induction pre with
  | nil =>
    intro _ l
    simp
  | cons x xs ih =>
    intro hpre l
    rw [firstIdx_cons] at hpre
    by_cases hx : x = c
    · rw [if_pos hx] at hpre
      cases hpre
    · rw [if_neg hx] at hpre
      have hxs : firstIdx c xs = none := by
        cases hfi : firstIdx c xs
        · rfl
        · rw [hfi] at hpre
          cases hpre
      rw [List.cons_append, firstIdx_cons, if_neg hx, ih hxs l]
      cases firstIdx c l <;> simp
      omega

theorem firstIdx_head {c : Char} {l : List Char} (h : l.head? = some c) :
    firstIdx c l = some 0 := by
  cases l with
  | nil => simp at h
  | cons x xs =>
    simp only [List.head?_cons, Option.some.injEq] at h
    rw [firstIdx_cons, if_pos h]

theorem lastIdx_eq_none {c : Char} : ∀ {l : List Char}, c ∉ l → lastIdx c l = none := by
  intro l
  induction l with
  | nil => intro _; rfl
  | cons x xs ih =>
    intro h
    rw [lastIdx_cons, ih (fun hx => h (List.mem_cons_of_mem _ hx))]
    exact if_neg (fun hx => h (List.mem_cons.mpr (Or.inl hx.symm)))

theorem lastIdx_append_none {c : Char} {post : List Char} (hpost : lastIdx c post = none) :
    ∀ l : List Char, lastIdx c (l ++ post) = lastIdx c l := by
  intro l
  induction l with
  | nil => simpa using hpost
  | cons x xs ih =>
    rw [List.cons_append, lastIdx_cons, ih, lastIdx_cons]

theorem lastIdx_append_some {c : Char} {l : List Char} {i : Nat} (h : lastIdx c l = some i) :
    ∀ pre : List Char, lastIdx c (pre ++ l) = some (pre.length + i) := by
  intro pre
  induction pre with
  | nil => simpa using h
  | cons x xs ih =>
    rw [List.cons_append, lastIdx_cons, ih]
    simp only [List.length_cons, Option.some.injEq]
    omega

theorem lastIdx_getLast {c : Char} : ∀ {l : List Char}, l.getLast? = some c →
    lastIdx c l = some (l.length - 1) := by
  intro l
  induction l with
  | nil => intro h; simp at h
  | cons x xs ih =>
    intro h
    cases xs with
    | nil =>
      simp only [List.getLast?_singleton, Option.some.injEq] at h
      rw [lastIdx_cons, lastIdx_nil, if_pos h]
      rfl
    | cons y ys =>
      rw [List.getLast?_cons_cons] at h
      rw [lastIdx_cons, ih h]
      simp only [List.length_cons, Option.some.injEq]
      omega

theorem extract_json_eq_some {raw : List Char} {s e : Nat} (hs : firstIdx lbrace raw = some s)
    (he : lastIdx rbrace raw = some e) (hse : s ≤ e + 1) :
    extract_json raw = some ((raw.take (e + 1)).drop s) := by
  unfold extract_json
  rw [hs, he]
  show (if s ≤ e + 1 then some ((raw.take (e + 1)).drop s) else none) = _
  rw [if_pos hse]

theorem extract_json_no_open {raw : List Char} (h : firstIdx lbrace raw = none) :
    extract_json raw = some raw := by
  unfold extract_json
  rw [h]

theorem extract_json_no_close {raw : List Char} (h : lastIdx rbrace raw = none) :
    extract_json raw = some raw := by
  unfold extract_json
  cases hf : firstIdx lbrace raw
  · rfl
  · rw [h]

theorem parse_analysis_json_some {text c : List Char} (h : extract_json text = some c)
    (files : List DiffFile) :
    parse_analysis_json text files = some
      { summary := ((jAsArr (jget ((jsonParse (rustTrim c)).getD fallbackJson)
            (str "summary"))).map (fun a => a.filterMap jAsStr)).getD [str "Analysis complete"],
        risk_level := (jAsStr (jget ((jsonParse (rustTrim c)).getD fallbackJson)
            (str "risk_level"))).getD (str "low"),
        risk_reasons := ((jAsArr (jget ((jsonParse (rustTrim c)).getD fallbackJson)
            (str "risk_reasons"))).map (fun a => a.filterMap jAsStr)).getD [],
        impacted_files := files.map toImpactedFile,
        impacted_symbols := [],
        suggested_actions := ((jAsArr (jget ((jsonParse (rustTrim c)).getD fallbackJson)
            (str "suggested_actions"))).map (fun a => a.filterMap toSuggestedAction)).getD [],
        confidence := (jAsNum (jget ((jsonParse (rustTrim c)).getD fallbackJson)
            (str "confidence"))).getD (3 / 4) } := by
  unfold parse_analysis_json
  rw [h]

theorem jget_of_not_obj {v : Json} (h : jIsObj v = false) (key : List Char) :
    jget v key = .null := by
  cases v <;> first | rfl | simp [jIsObj] at h

theorem jget_fallback_summary :
    jget fallbackJson (str "summary") =
      Json.arr [Json.str (str "Changes analyzed (LLM parse error)")] := by rfl

theorem jget_fallback_risk_level :
    jget fallbackJson (str "risk_level") = Json.str (str "low") := by rfl

theorem jget_fallback_risk_reasons :
    jget fallbackJson (str "risk_reasons") = Json.arr [] := by rfl

theorem jget_fallback_suggested_actions :
    jget fallbackJson (str "suggested_actions") = Json.arr [] := by rfl

theorem jget_fallback_confidence :
    jget fallbackJson (str "confidence") = Json.null := by rfl

theorem headSpace_not_add {l : List Char} (h : l.head? = some ' ') : isAddLine l = false := by
  cases l with
  | nil => simp at h
  | cons x xs =>
    simp only [List.head?_cons, Option.some.injEq] at h
    subst h
    rfl

theorem headSpace_not_rem {l : List Char} (h : l.head? = some ' ') : isRemLine l = false := by
  cases l with
  | nil => simp at h
  | cons x xs =>
    simp only [List.head?_cons, Option.some.injEq] at h
    subst h
    rfl

/-! # Claim theorems -/

/-- C1: the claim says `extract(raw_text, files)` never fails for every
input, including those where a closing brace occurs before the first
opening brace.  The code violates this: on `"\x7d A \x7b"` the slice
`raw[start..=end]` in `extract_json` has `start = 4 > end + 1 = 1` and
panics, so `parse_analysis_json` panics as well (modelled as `none`). -/
theorem c1_extract_never_fails_refuted :
    parse_analysis_json (str "\x7d A \x7b") [] = none ∧
      extract_json (str "\x7d A \x7b") = none := by
  exact ⟨rfl, rfl⟩

/-- C8: `normalize_score` is a pure total function of the line total with
bands `0..=10 ↦ 0.3`, `11..=50 ↦ 0.6`, `51.. ↦ 0.9`, including the
boundary values `0, 10, 11, 50, 51`. -/
theorem c8_score_bands (t : Nat) :
    (t ≤ 10 → normalize_score t = 3 / 10) ∧
    (11 ≤ t → t ≤ 50 → normalize_score t = 6 / 10) ∧
    (51 ≤ t → normalize_score t = 9 / 10) ∧
    normalize_score 0 = 3 / 10 ∧ normalize_score 10 = 3 / 10 ∧
    normalize_score 11 = 6 / 10 ∧ normalize_score 50 = 6 / 10 ∧
    normalize_score 51 = 9 / 10 := by
  refine ⟨?_, ?_, ?_, rfl, rfl, rfl, rfl, rfl⟩
  · intro h
    unfold normalize_score
    rw [if_pos h]
  · intro h1 h2
    unfold normalize_score
    rw [if_neg (by omega), if_pos h2]
  · intro h
    unfold normalize_score
    rw [if_neg (by omega), if_neg (by omega)]

/-- Witness for C8 at the concrete total `30`. -/
theorem c8_score_bands_witness : normalize_score 30 = 6 / 10 :=
  (c8_score_bands 30).2.1 (by omega) (by omega)

/-- C9: `build_prompt` produces the fixed two-section layout, truncating
the diff body to 3000 characters (counted per Unicode scalar value) with
the `"...[truncated]"` suffix exactly when the raw diff exceeds 3000
characters, and passing it through unchanged otherwise. -/
theorem c9_prompt_layout (files : List DiffFile) (raw : List Char) :
    (raw.length ≤ 3000 →
      build_prompt files raw = promptHeader files ++ raw ++ str "\n```") ∧
    (3000 < raw.length →
      build_prompt files raw =
        promptHeader files ++ raw.take 3000 ++ str "...[truncated]" ++ str "\n```") := by
  constructor
  · intro h
    unfold build_prompt promptHeader
    rw [if_neg (by omega)]
  · intro h
    unfold build_prompt promptHeader
    rw [if_pos h]
    simp [List.append_assoc]

/-- Witness for C9 at a one-character diff (no truncation). -/
theorem c9_prompt_layout_witness :
    build_prompt [] (str "d") = promptHeader [] ++ str "d" ++ str "\n```" :=
  (c9_prompt_layout [] (str "d")).1 (by decide)

/-- C5: `parse_diff` returns one record per `diff --git ` header line, in
first-seen order (the i-th record's path comes from the i-th header), and
returns the empty list when there is no header, in particular on empty
input. -/
theorem c5_one_record_per_header (raw : List Char) :
    (parse_diff raw).map DiffFile.path =
      ((rustLines raw).filter isHeaderLine).map headerPath ∧
    (parse_diff raw).length = (rustLines raw).countP isHeaderLine ∧
    ((rustLines raw).countP isHeaderLine = 0 → parse_diff raw = []) ∧
    parse_diff [] = [] := by
  have hmap : (parse_diff raw).map DiffFile.path =
      ((rustLines raw).filter isHeaderLine).map headerPath := by
    rw [parse_diff_eq_sections, List.map_map, ← splitSections_fst, List.map_map]
    apply List.map_congr_left
    intro s _
    exact mkSection_path s.1 s.2
  refine ⟨hmap, ?_, ?_, rfl⟩
  · have := congrArg List.length hmap
    rw [List.length_map, List.length_map, ← List.countP_eq_length_filter] at this
    exact this
  · intro h0
    have hfil : (rustLines raw).filter isHeaderLine = [] := by
      rw [← List.length_eq_zero, ← List.countP_eq_length_filter]
      exact h0
    rw [hfil] at hmap
    simpa using hmap

/-- Witness for C5 on a two-file diff and on header-free text. -/
theorem c5_one_record_per_header_witness :
    (parse_diff (str "diff --git a/a.ts b/a.ts\n+x\ndiff --git a/b.ts b/b.ts\n-y")).map
      DiffFile.path = [str "a.ts", str "b.ts"] ∧
    parse_diff (str "no headers here") = [] := by
  constructor
  · exact ((c5_one_record_per_header
      (str "diff --git a/a.ts b/a.ts\n+x\ndiff --git a/b.ts b/b.ts\n-y")).1).trans (by decide)
  · exact (c5_one_record_per_header (str "no headers here")).2.2.1 (by decide)

/-- C2 (amended): for every diff text, the i-th record's `added_lines` is
the number of lines in the i-th file section satisfying "starts with `+`
but not with `+++`" (so the `+++ ` marker and any other `+++`-prefixed
line are excluded), symmetrically for `removed_lines` with `-`/`---`;
context lines (leading space) and `@@` lines satisfy neither predicate,
so they never change either count. -/
theorem c2_added_removed_counts (raw : List Char) :
    ((parse_diff raw).map DiffFile.added_lines =
      (splitSections (rustLines raw)).map (fun s => s.2.countP isAddLine)) ∧
    ((parse_diff raw).map DiffFile.removed_lines =
      (splitSections (rustLines raw)).map (fun s => s.2.countP isRemLine)) ∧
    (∀ l : List Char, l.head? = some ' ' ∨ isHunkHeader l = true →
      isAddLine l = false ∧ isRemLine l = false) := by
  refine ⟨?_, ?_, ?_⟩
  · rw [parse_diff_eq_sections, List.map_map]
    apply List.map_congr_left
    intro s _
    exact mkSection_added s.1 s.2
  · rw [parse_diff_eq_sections, List.map_map]
    apply List.map_congr_left
    intro s _
    exact mkSection_removed s.1 s.2
  · intro l h
    rcases h with h | h
    · exact ⟨headSpace_not_add h, headSpace_not_rem h⟩
    · exact ⟨hunk_not_add h, hunk_not_rem h⟩

/-- Counterexample for C2 as stated: in the section of this diff the line
`+++x` starts with `+` and is not the add-file marker line (`+++ `), so
the claim counts it; the parser's guard excludes every `+++`-prefixed line
and reports `added_lines = 0`. -/
theorem c2_marker_exclusion_counterexample :
    (parse_diff (str "diff --git a/f.ts b/f.ts\n+++x")).map DiffFile.added_lines = [0] ∧
    (splitSections (rustLines (str "diff --git a/f.ts b/f.ts\n+++x"))).map
      (fun s => s.2.countP claimAddPred) = [1] := by
  exact ⟨by decide, by decide⟩

/-- Witness for C2 on a one-file diff with two additions, one removal, a
context line and a hunk marker. -/
theorem c2_added_removed_counts_witness :
    (parse_diff (str "diff --git a/a b/a\n--- a/a\n+++ b/a\n@@ -1 +1 @@\n+x\n+y\n-z\n w\n")).map
      DiffFile.added_lines = [2] ∧
    isAddLine (str " w") = false := by
  constructor
  · exact ((c2_added_removed_counts
      (str "diff --git a/a b/a\n--- a/a\n+++ b/a\n@@ -1 +1 @@\n+x\n+y\n-z\n w\n")).1).trans
      (by decide)
  · exact ((c2_added_removed_counts []).2.2 (str " w") (Or.inl rfl)).1

/-- C3 (amended): when the i-th file section contains K `@@` lines
(K ≥ 1) and every line of the section before the first `@@` is a skipped
file-marker line (`--- `/`+++ `), the i-th FileChange has exactly K hunk
entries, and the add/remove counts of the whole section accumulate into
that single FileChange. -/
theorem c3_hunks_per_marker (raw : List Char) (i : Nat) (hdr : List Char)
    (body : List (List Char)) (file : DiffFile)
    (hsec : (splitSections (rustLines raw))[i]? = some (hdr, body))
    (hfile : (parse_diff raw)[i]? = some file)
    (hpre : ∀ l ∈ body.takeWhile (fun x => !isHunkHeader x), isSkipLine l = true)
    (hK : 1 ≤ body.countP isHunkHeader) :
    file.hunks.length = body.countP isHunkHeader ∧
    file.added_lines = body.countP isAddLine ∧
    file.removed_lines = body.countP isRemLine := by
  rw [parse_diff_eq_sections, List.getElem?_map, hsec] at hfile
  simp only [Option.map_some'] at hfile
  obtain rfl := Option.some.inj hfile
  refine ⟨?_, mkSection_added hdr body, mkSection_removed hdr body⟩
  rw [mkSection_hunks]
  exact hunkPiecesF_len_marked body hpre hK

/-- Counterexample for C3 as stated: this section has K = 1 hunk-marker
line, but the non-marker line `index 1` before the first `@@` is flushed
as an extra leading hunk, so the FileChange has 2 hunk entries. -/
theorem c3_hunk_count_counterexample :
    (parse_diff (str "diff --git a/f b/f\nindex 1\n@@ -1 +1 @@\n+x")).map
      (fun f => f.hunks.length) = [2] ∧
    (rustLines (str "diff --git a/f b/f\nindex 1\n@@ -1 +1 @@\n+x")).countP
      isHunkHeader = 1 := by
  exact ⟨by decide, by decide⟩

/-- Witness for C3 on a diff whose single section has two `@@` hunks. -/
theorem c3_hunks_per_marker_witness :
    (DiffFile.mk (str "f") 1 1 [str "@@ -1 +1 @@\n+x\n", str "@@ -2 +2 @@\n-y\n"]).hunks.length =
      ([str "--- a/f", str "+++ b/f", str "@@ -1 +1 @@", str "+x", str "@@ -2 +2 @@",
        str "-y"] : List (List Char)).countP isHunkHeader :=
  (c3_hunks_per_marker (str "diff --git a/f b/f\n--- a/f\n+++ b/f\n@@ -1 +1 @@\n+x\n@@ -2 +2 @@\n-y\n")
    0 (str "diff --git a/f b/f")
    [str "--- a/f", str "+++ b/f", str "@@ -1 +1 @@", str "+x", str "@@ -2 +2 @@", str "-y"]
    (DiffFile.mk (str "f") 1 1 [str "@@ -1 +1 @@\n+x\n", str "@@ -2 +2 @@\n-y\n"])
    (by decide) (by decide) (by decide) (by decide)).1

theorem parse_analysis_json_none {text : List Char} (h : extract_json text = none)
    (files : List DiffFile) : parse_analysis_json text files = none := by
  unfold parse_analysis_json
  rw [h]

/-- C4: whenever the extractor returns, `impacted_files` has exactly one
entry per input FileChange, in the same order, with that file's path, the
score of `added + removed`, and the single why-string
`"+{added} -{removed} lines"`; it never depends on the model text, and
`impacted_symbols` is always empty. -/
theorem c4_impacted_files_structure (text : List Char) (files : List DiffFile)
    (r : AnalysisResult) (h : parse_analysis_json text files = some r) :
    r.impacted_files = files.map (fun f =>
      { path := f.path,
        score := normalize_score (f.added_lines + f.removed_lines),
        why := [whyLine f.added_lines f.removed_lines] }) ∧
    r.impacted_symbols = [] ∧
    r.impacted_files.length = files.length ∧
    (∀ (text2 : List Char) (r2 : AnalysisResult),
      parse_analysis_json text2 files = some r2 → r2.impacted_files = r.impacted_files) := by
  have main : ∀ (t : List Char) (rr : AnalysisResult), parse_analysis_json t files = some rr →
      rr.impacted_files = files.map toImpactedFile ∧ rr.impacted_symbols = [] := by
    intro t rr hrr
    cases he : extract_json t with
    | none =>
      rw [parse_analysis_json_none he files] at hrr
      cases hrr
    | some c =>
      obtain rfl := Option.some.inj ((parse_analysis_json_some he files).symm.trans hrr)
      exact ⟨rfl, rfl⟩
  obtain ⟨h1, h2⟩ := main text r h
  refine ⟨h1, h2, ?_, ?_⟩
  · rw [h1, List.length_map]
  · intro t2 r2 h2'
    rw [(main t2 r2 h2').1, h1]

/-- Witness for C4 at a non-JSON model text and one file record. -/
theorem c4_impacted_files_structure_witness :
    (AnalysisResult.mk [str "Changes analyzed (LLM parse error)"] (str "low") []
        [ImpactedFile.mk (str "a.ts") (3 / 10) [str "+2 -1 lines"]] [] [] (3 / 4)).impacted_files =
      [DiffFile.mk (str "a.ts") 2 1 []].map (fun f =>
        { path := f.path,
          score := normalize_score (f.added_lines + f.removed_lines),
          why := [whyLine f.added_lines f.removed_lines] }) :=
  (c4_impacted_files_structure (str "not json") [DiffFile.mk (str "a.ts") 2 1 []]
    (AnalysisResult.mk [str "Changes analyzed (LLM parse error)"] (str "low") []
        [ImpactedFile.mk (str "a.ts") (3 / 10) [str "+2 -1 lines"]] [] [] (3 / 4))
    (by rfl)).1

theorem jAsArr_of_not_arr {v : Json} (h : ∀ xs, v ≠ Json.arr xs) : jAsArr v = none := by
  cases v <;> first | rfl | exact absurd rfl (h _)

theorem jAsNum_of_not_num {v : Json} (h : ∀ q, v ≠ Json.num q) : jAsNum v = none := by
  cases v <;> first | rfl | exact absurd rfl (h _)

/-- C6: field extraction defaults independently per field: `summary`
defaults to `["Analysis complete"]` when its value is not an array,
`risk_level` to `"low"` when missing, `risk_reasons` to the empty list,
`suggested_actions` entries lacking a string `label` are dropped with a
missing `explanation` defaulting to the empty string, and `confidence`
defaults to `0.75` when not numeric and is passed through unclamped
otherwise; when the candidate fails to parse as JSON, the result carries
the fixed fallback summary, risk level `"low"`, no risk reasons, no
suggested actions. -/
theorem c6_field_defaults (text : List Char) (files : List DiffFile) (c : List Char)
    (r : AnalysisResult) (hc : extract_json text = some c)
    (hr : parse_analysis_json text files = some r) :
    (jsonParse (rustTrim c) = none →
      r.summary = [str "Changes analyzed (LLM parse error)"] ∧
      r.risk_level = str "low" ∧ r.risk_reasons = [] ∧
      r.suggested_actions = [] ∧ r.confidence = 3 / 4) ∧
    (∀ v : Json, jsonParse (rustTrim c) = some v →
      ((∀ xs : List Json, jget v (str "summary") ≠ Json.arr xs) →
        r.summary = [str "Analysis complete"]) ∧
      (jget v (str "risk_level") = Json.null → r.risk_level = str "low") ∧
      ((∀ xs : List Json, jget v (str "risk_reasons") ≠ Json.arr xs) →
        r.risk_reasons = []) ∧
      (∀ xs : List Json, jget v (str "suggested_actions") = Json.arr xs →
        r.suggested_actions = xs.filterMap toSuggestedAction) ∧
      ((∀ q : ℚ, jget v (str "confidence") ≠ Json.num q) → r.confidence = 3 / 4) ∧
      (∀ q : ℚ, jget v (str "confidence") = Json.num q → r.confidence = q)) := by
  obtain rfl := Option.some.inj ((parse_analysis_json_some hc files).symm.trans hr)
  constructor
  · intro hp
    rw [hp]
    exact ⟨rfl, rfl, rfl, rfl, rfl⟩
  · intro v hv
    rw [hv]
    simp only [Option.getD_some]
    refine ⟨?_, ?_, ?_, ?_, ?_, ?_⟩
    · intro hns
      show ((jAsArr (jget v (str "summary"))).map (fun a => a.filterMap jAsStr)).getD _ = _
      rw [jAsArr_of_not_arr hns]
      rfl
    · intro h0
      show (jAsStr (jget v (str "risk_level"))).getD (str "low") = _
      rw [h0]
      rfl
    · intro hns
      show ((jAsArr (jget v (str "risk_reasons"))).map (fun a => a.filterMap jAsStr)).getD _ = _
      rw [jAsArr_of_not_arr hns]
      rfl
    · intro xs hxs
      show ((jAsArr (jget v (str "suggested_actions"))).map
        (fun a => a.filterMap toSuggestedAction)).getD _ = _
      rw [hxs]
      rfl
    · intro hnn
      show (jAsNum (jget v (str "confidence"))).getD (3 / 4) = _
      rw [jAsNum_of_not_num hnn]
      rfl
    · intro q hq
      show (jAsNum (jget v (str "confidence"))).getD (3 / 4) = q
      rw [hq]
      rfl

/-- Witness for C6 on the non-JSON model text `"xyz"` (fallback branch). -/
theorem c6_field_defaults_witness :
    (parse_analysis_json (str "xyz") []).map AnalysisResult.summary =
      some [str "Changes analyzed (LLM parse error)"] := by
  have hr : parse_analysis_json (str "xyz") [] = some
      (AnalysisResult.mk [str "Changes analyzed (LLM parse error)"] (str "low") [] [] [] []
        (3 / 4)) := by rfl
  have h6 := (c6_field_defaults (str "xyz") [] (str "xyz")
    (AnalysisResult.mk [str "Changes analyzed (LLM parse error)"] (str "low") [] [] [] []
        (3 / 4)) (by rfl) hr).1 (by rfl)
  rw [hr]
  exact congrArg some h6.1

/-- C10: when the candidate parses as valid JSON that is not an object,
the extractor does not use the parse-error fallback: every field carries
its per-field default (`["Analysis complete"]`, `"low"`, `[]`, `[]`,
`0.75`), and the fallback summary does not appear. -/
theorem c10_valid_nonobject_defaults (text : List Char) (files : List DiffFile)
    (c : List Char) (v : Json) (hc : extract_json text = some c)
    (hv : jsonParse (rustTrim c) = some v) (hobj : jIsObj v = false) :
    parse_analysis_json text files = some
      { summary := [str "Analysis complete"], risk_level := str "low",
        risk_reasons := [], impacted_files := files.map toImpactedFile,
        impacted_symbols := [], suggested_actions := [], confidence := 3 / 4 } ∧
    ([str "Analysis complete"] : List (List Char)) ≠
      [str "Changes analyzed (LLM parse error)"] := by
  refine ⟨?_, by decide⟩
  rw [parse_analysis_json_some hc files, hv]
  simp only [Option.getD_some]
  rw [jget_of_not_obj hobj, jget_of_not_obj hobj, jget_of_not_obj hobj,
    jget_of_not_obj hobj, jget_of_not_obj hobj]
  rfl

/-- Witness for C10 at the bare JSON string `"ok"`. -/
theorem c10_valid_nonobject_defaults_witness :
    parse_analysis_json (str "\"ok\"") [] = some
      { summary := [str "Analysis complete"], risk_level := str "low",
        risk_reasons := [], impacted_files := [], impacted_symbols := [],
        suggested_actions := [], confidence := 3 / 4 } :=
  (c10_valid_nonobject_defaults (str "\"ok\"") [] (str "\"ok\"") (Json.str (str "ok"))
    (by rfl) (by rfl) (by rfl)).1

/-- C7 (amended): the JSON-candidate isolation takes the inclusive
substring from the first opening brace to the last closing brace when both
exist and the first opening brace is at most one position past the last
closing brace (otherwise the slice panics, see C1); when either brace is
missing it uses the full text unchanged; consequently prose before/after a
JSON object (or a markdown fence) yields the same result as the bare
object. -/
theorem c7_candidate_isolation :
    (∀ (raw : List Char) (s e : Nat), firstIdx lbrace raw = some s →
      lastIdx rbrace raw = some e → s ≤ e + 1 →
      extract_json raw = some ((raw.take (e + 1)).drop s)) ∧
    (∀ raw : List Char, firstIdx lbrace raw = none ∨ lastIdx rbrace raw = none →
      extract_json raw = some raw) ∧
    (∀ (pre obj post : List Char) (files : List DiffFile), lbrace ∉ pre → rbrace ∉ post →
      obj.head? = some lbrace → obj.getLast? = some rbrace →
      parse_analysis_json ((pre ++ obj) ++ post) files = parse_analysis_json obj files) := by
  refine ⟨fun raw s e hs he hse => extract_json_eq_some hs he hse, ?_, ?_⟩
  · intro raw h
    rcases h with h | h
    · exact extract_json_no_open h
    · exact extract_json_no_close h
  · intro pre obj post files hpre hpost hhead hlast
    have hobj_ne : obj ≠ [] := by
      intro h
      rw [h] at hhead
      simp at hhead
    have hlen : 1 ≤ obj.length := List.length_pos.mpr hobj_ne
    have h1 : extract_json obj = some obj := by
      rw [extract_json_eq_some (firstIdx_head hhead) (lastIdx_getLast hlast) (by omega)]
      congr 1
      rw [List.drop_zero, show obj.length - 1 + 1 = obj.length from by omega, List.take_length]
    have h2 : extract_json ((pre ++ obj) ++ post) = some obj := by
      have hf : firstIdx lbrace ((pre ++ obj) ++ post) = some pre.length := by
        rw [List.append_assoc, firstIdx_append_none (firstIdx_eq_none hpre) (obj ++ post)]
        rw [firstIdx_head (show (obj ++ post).head? = some lbrace from by
          cases obj with
          | nil => simp at hhead
          | cons x xs => simpa using hhead)]
        rfl
      have hl : lastIdx rbrace ((pre ++ obj) ++ post) = some (pre.length + (obj.length - 1)) := by
        rw [lastIdx_append_none (lastIdx_eq_none hpost) (pre ++ obj)]
        exact lastIdx_append_some (lastIdx_getLast hlast) pre
      rw [extract_json_eq_some hf hl (by omega)]
      congr 1
      rw [show pre.length + (obj.length - 1) + 1 = (pre ++ obj).length from by
        rw [List.length_append]; omega]
      rw [List.take_left, List.drop_left]
    unfold parse_analysis_json
    rw [h1, h2]

/-- Counterexample for C7 as stated: on `"\x7da\x7b"` both braces exist,
yet the extractor neither takes the described inclusive substring nor
returns the full text — the slice panics (modelled as `none`). -/
theorem c7_isolation_counterexample :
    extract_json (str "\x7da\x7b") = none ∧
    extract_json (str "\x7da\x7b") ≠ some (extract_jsonSpec (str "\x7da\x7b")) ∧
    extract_json (str "\x7da\x7b") ≠ some (str "\x7da\x7b") := by
  exact ⟨rfl, by decide, by decide⟩

/-- Witness for C7: surrounding prose and a tail do not change the result
of extraction on a JSON object. -/
theorem c7_candidate_isolation_witness :
    parse_analysis_json ((str "noise " ++ str "\x7b\"risk_level\":\"high\"\x7d") ++ str " tail")
        [] =
      parse_analysis_json (str "\x7b\"risk_level\":\"high\"\x7d") [] :=
  c7_candidate_isolation.2.2 (str "noise ") (str "\x7b\"risk_level\":\"high\"\x7d")
    (str " tail") [] (by decide) (by decide) (by decide) (by decide)
